import Mathlib

/-!
# ADHDaily backend — shallow embedding and verification

Shallow embedding of the ADHDaily task-management backend
(`src/main.py`, `src/routes/tasks.py`, `src/models.py`) in Lean 4,
together with theorems settling the frozen claims about its spec.

The repository contains two evolutions of the task API:
* `main.py` — the user-scoped relational version (authoritative per the
  spec's design notes): users, token auth, demo-identity fallback, and
  user-scoped task CRUD.
* `routes/tasks.py` — an earlier version with an unscoped task table and
  the random size-diversified focus selection.

Conventions of the embedding:
* `datetime` values are modelled as abstract `Nat` instants (`now` is an
  explicit argument to every operation that stamps a time).
* SQL tables are lists of records; `SELECT ... ORDER BY` is a filter
  followed by a sort; primary-key ids follow the SQLite rowid rule for an
  INTEGER PRIMARY KEY without AUTOINCREMENT — a new row takes one more
  than the largest id currently in use, so a deleted highest id is
  reused by the next insert.
* Python's `str(n)` / `int(s)` pair is modelled by `pyStrNat` / `pyInt`
  over ASCII decimal digit strings (sign and surrounding whitespace
  accepted on parse, as Python's `int` does).
* `hashlib.sha256(...).hexdigest()` is an external library call; it is
  modelled by an arbitrary deterministic function `hashFn : String → String`
  passed explicitly to every operation that hashes.
* `random.choice` is modelled with an arbitrary index supply and
  `random.shuffle` with an arbitrary permutation-producing function, so the
  theorems hold for every draw the random generator could make.
* `raise HTTPException(code, detail)` is modelled as `Except Err`.
-/

/-! ## Decimal strings: model of Python `str(int)` and `int(str)` -/

/-- Value of a decimal digit character, as Python computes it. -/
def decVal (c : Char) : Nat := c.toNat - 48

/-- The decimal digit character for a digit `d < 10`. -/
def decChar (d : Nat) : Char := Char.ofNat (48 + d)

/-- Little-endian decimal digits of `n`, fuel-driven so the kernel can
reduce it. -/
def natDigitsAux : Nat → Nat → List Nat
  | 0, _ => []
  | _ + 1, 0 => []
  | fuel + 1, n + 1 => ((n + 1) % 10) :: natDigitsAux fuel ((n + 1) / 10)

/-- Little-endian decimal digits of `n` (empty for `0`). -/
def natDecDigits (n : Nat) : List Nat := natDigitsAux n n

/-- Value of a little-endian decimal digit list. -/
def digitsVal (ds : List Nat) : Nat := ds.foldr (fun d a => d + 10 * a) 0

/-- Model of Python `str` on a non-negative integer: its decimal digits. -/
def pyStrNat (n : Nat) : String :=
  if n = 0 then "0" else ⟨((natDecDigits n).reverse.map decChar)⟩

/-- Model of Python `str.strip()` for leading/trailing whitespace, on the
character list of the string. -/
def stripWs (cs : List Char) : List Char :=
  ((cs.dropWhile Char.isWhitespace).reverse.dropWhile Char.isWhitespace).reverse

/-- Parse a non-empty all-digit character list as a natural number, as the
digit loop of Python `int` does. -/
def decValChars? (cs : List Char) : Option Nat :=
  if cs ≠ [] ∧ cs.all Char.isDigit then
    some (cs.foldl (fun a c => 10 * a + decVal c) 0)
  else none

/-- Sign-and-digits step of Python `int` on stripped characters. -/
def pyIntChars : List Char → Option Int
  | [] => none
  | c :: rest =>
    if c = '-' then (decValChars? rest).map (fun m => -(m : Int))
    else if c = '+' then (decValChars? rest).map (fun m => (m : Int))
    else (decValChars? (c :: rest)).map (fun m => (m : Int))

/-- Model of Python `int(s)`: optional surrounding whitespace, optional
sign, then decimal digits; anything else raises `ValueError` (here:
`none`). -/
def pyInt (s : String) : Option Int := pyIntChars (stripWs s.data)

/-! ## Data model of `main.py` (user-scoped version) -/

/-- A row of the `users` table (`class User` in `main.py`). -/
structure MUser where
  id : Nat
  email : String
  hashedPassword : String
  createdAt : Nat
  deriving DecidableEq, Repr

/-- A row of the `tasks` table (`class Task` in `main.py`). -/
structure MTask where
  id : Nat
  title : String
  size : String
  category : String
  status : String
  importance : Int
  dueDate : Option Nat
  isRoutine : Bool
  recurrence : Option String
  createdAt : Nat
  updatedAt : Nat
  userId : Nat
  deriving DecidableEq, Repr

/-- The request payload schema `TaskCreate` of `main.py` (all fields are
plain data; pydantic performs no content validation on them). -/
structure TaskCreate where
  title : String
  size : String := "tiny"
  category : String := "general"
  importance : Int := 1
  dueDate : Option Nat := none
  isRoutine : Bool := false
  recurrence : Option String := none
  deriving DecidableEq, Repr

/-- The relational database of `main.py`: the two tables. Primary-key ids
are not tracked by a separate counter: the schema declares
`id = Column(Integer, primary_key=True)` on SQLite without
`AUTOINCREMENT`, so the id of a new row is computed from the rows
currently present (see `nextTaskIdOf` / `nextUserIdOf`). -/
structure DB where
  users : List MUser
  tasks : List MTask
  deriving DecidableEq, Repr

/-- A fresh database, as `Base.metadata.create_all` produces it. -/
def initDB : DB := ⟨[], []⟩

/-- The largest id in use (0 on an empty table). -/
def maxId : List Nat → Nat
  | [] => 0
  | x :: rest => max x (maxId rest)

/-- SQLite rowid assignment for a rowid-aliased INTEGER PRIMARY KEY
without AUTOINCREMENT: one more than the largest rowid currently in use
(1 on an empty table). The id of a deleted highest-id row is therefore
REUSED by the next insert. -/
def nextTaskIdOf (db : DB) : Nat := maxId (db.tasks.map (fun t => t.id)) + 1

/-- Rowid assignment of the `users` table, same SQLite rule. -/
def nextUserIdOf (db : DB) : Nat := maxId (db.users.map (fun u => u.id)) + 1

/-- `raise HTTPException(status_code=..., detail=...)`. -/
structure Err where
  status : Nat
  detail : String
  deriving DecidableEq, Repr

/-- The HTTP status of the error outcome, if any. -/
def errStatus? {α : Type} : Except Err α → Option Nat
  | .error e => some e.status
  | .ok _ => none

/-- Python truthiness of the optional bearer token (`if token:` treats
both `None` and the empty string as absent). -/
def pyTruthy : Option String → Bool
  | none => false
  | some s => s ≠ ""

/-- The well-known email of the shared demo identity. -/
def demoEmail : String := "demo@adhdaily.local"

/-! ## Operations of `main.py` -/

/-- `get_user_from_token`: the token is the user id in decimal; parse
failure or unknown id is a 401. -/
def getUserFromToken (db : DB) (token : String) : Except Err MUser :=
  match pyInt token with
  | none => .error ⟨401, "Invalid token"⟩
  | some uid =>
    match db.users.find? (fun u => (u.id : Int) == uid) with
    | none => .error ⟨401, "User not found for token"⟩
    | some u => .ok u

/-- `get_current_or_demo_user`: with a truthy token, resolve it; otherwise
find or lazily create the shared demo user (hashed password
`hashFn "demo"`). Returns the identity together with the (possibly
updated) database. -/
def getCurrentOrDemoUser (hashFn : String → String) (db : DB)
    (token : Option String) (now : Nat) : Except Err (MUser × DB) :=
  if pyTruthy token then
    (getUserFromToken db (token.getD "")).map (fun u => (u, db))
  else
    match db.users.find? (fun u => u.email == demoEmail) with
    | some u => .ok (u, db)
    | none =>
      let u : MUser := ⟨nextUserIdOf db, demoEmail, hashFn "demo", now⟩
      .ok (u, { db with users := db.users ++ [u] })

/-- `register_user`: 400 if the email is taken, else insert. -/
def registerUser (hashFn : String → String) (db : DB)
    (email pw : String) (now : Nat) : Except Err (MUser × DB) :=
  match db.users.find? (fun u => u.email == email) with
  | some _ => .error ⟨400, "Email already registered"⟩
  | none =>
    let u : MUser := ⟨nextUserIdOf db, email, hashFn pw, now⟩
    .ok (u, { db with users := db.users ++ [u] })

/-- `login`: look the user up by email, compare password hashes, and
return the token `str(user.id)`. -/
def login (hashFn : String → String) (db : DB)
    (username password : String) : Except Err String :=
  match db.users.find? (fun u => u.email == username) with
  | none => .error ⟨401, "Incorrect email or password"⟩
  | some u =>
    if hashFn password == u.hashedPassword then .ok (pyStrNat u.id)
    else .error ⟨401, "Incorrect email or password"⟩

/-- Update the first element satisfying `p` (the single ORM object the
`.first()` query returned). -/
def updFirst (p : α → Bool) (f : α → α) : List α → List α
  | [] => []
  | x :: xs => if p x then f x :: xs else x :: updFirst p f xs

/-- Remove the first element satisfying `p` (`db.delete(task)` on the
single object the `.first()` query returned). -/
def removeFirst (p : α → Bool) : List α → List α
  | [] => []
  | x :: xs => if p x then xs else x :: removeFirst p xs

/-- The row predicate of the user-scoped task queries:
`Task.id == task_id, Task.user_id == current_user.id`. -/
def ownedBy (taskId : Int) (user : MUser) (t : MTask) : Bool :=
  (t.id : Int) == taskId && t.userId == user.id

/-- `create_task`: no validation; the task starts at status `pending`
with `created_at = updated_at = now` and the next primary-key id. -/
def createTask (db : DB) (payload : TaskCreate) (user : MUser)
    (now : Nat) : Except Err (MTask × DB) :=
  let t : MTask :=
    { id := nextTaskIdOf db
      title := payload.title
      size := payload.size
      category := payload.category
      status := "pending"
      importance := payload.importance
      dueDate := payload.dueDate
      isRoutine := payload.isRoutine
      recurrence := payload.recurrence
      createdAt := now
      updatedAt := now
      userId := user.id }
  .ok (t, { db with tasks := db.tasks ++ [t] })

/-- `complete_task`: 404 unless a task with this id is owned by the
caller; otherwise set status `completed` and refresh `updated_at`. -/
def completeTask (db : DB) (taskId : Int) (user : MUser)
    (now : Nat) : Except Err (MTask × DB) :=
  match db.tasks.find? (ownedBy taskId user) with
  | none => .error ⟨404, "Task not found"⟩
  | some t =>
    let t2 := { t with status := "completed", updatedAt := now }
    let upd := fun x : MTask => { x with status := "completed", updatedAt := now }
    .ok (t2, { db with tasks := updFirst (ownedBy taskId user) upd db.tasks })

/-- `delete_task`: 404 under the same scoping rule; otherwise remove the
row. -/
def deleteTask (db : DB) (taskId : Int) (user : MUser) : Except Err DB :=
  match db.tasks.find? (ownedBy taskId user) with
  | none => .error ⟨404, "Task not found"⟩
  | some _ => .ok { db with tasks := removeFirst (ownedBy taskId user) db.tasks }

/-- The row predicate of `/tasks/focus`: this user's pending tasks. -/
def pendingOf (user : MUser) (t : MTask) : Bool :=
  t.userId == user.id && t.status == "pending"

/-- The row predicate of `/tasks/completed`: this user's completed
tasks. -/
def completedOf (user : MUser) (t : MTask) : Bool :=
  t.userId == user.id && t.status == "completed"

/-- `get_focus_tasks` in `main.py`: ALL of the caller's pending tasks,
ordered by `created_at` ascending (its docstring: the frontend chooses
which ones to show). -/
def getFocusTasks (db : DB) (user : MUser) : List MTask :=
  List.insertionSort (fun a b => a.createdAt ≤ b.createdAt)
    (db.tasks.filter (pendingOf user))

/-- `get_completed_tasks`: the caller's completed tasks, ordered by
`updated_at` descending. -/
def getCompletedTasks (db : DB) (user : MUser) : List MTask :=
  List.insertionSort (fun a b => b.updatedAt ≤ a.updatedAt)
    (db.tasks.filter (completedOf user))

/-! ## Request-level step machine over `main.py`

Every task endpoint first resolves the caller through
`get_current_or_demo_user` (which may commit the lazily created demo
user) and then runs its operation; an `HTTPException` aborts the request
leaving the already-committed state in place. -/

/-- One inbound HTTP request to the `main.py` API. -/
inductive Req where
  | register (email pw : String)
  | doLogin (email pw : String)
  | focus (token : Option String)
  | completedList (token : Option String)
  | create (token : Option String) (payload : TaskCreate)
  | complete (token : Option String) (taskId : Int)
  | delete (token : Option String) (taskId : Int)
  deriving DecidableEq, Repr

/-- The database after handling one request at instant `now`. -/
def step (hashFn : String → String) (db : DB) (r : Req) (now : Nat) : DB :=
  match r with
  | .register email pw =>
    match registerUser hashFn db email pw now with
    | .ok (_, db2) => db2
    | .error _ => db
  | .doLogin _ _ => db
  | .focus token | .completedList token =>
    match getCurrentOrDemoUser hashFn db token now with
    | .ok (_, db2) => db2
    | .error _ => db
  | .create token payload =>
    match getCurrentOrDemoUser hashFn db token now with
    | .ok (u, db2) =>
      match createTask db2 payload u now with
      | .ok (_, db3) => db3
      | .error _ => db2
    | .error _ => db
  | .complete token taskId =>
    match getCurrentOrDemoUser hashFn db token now with
    | .ok (u, db2) =>
      match completeTask db2 taskId u now with
      | .ok (_, db3) => db3
      | .error _ => db2
    | .error _ => db
  | .delete token taskId =>
    match getCurrentOrDemoUser hashFn db token now with
    | .ok (u, db2) =>
      match deleteTask db2 taskId u with
      | .ok db3 => db3
      | .error _ => db2
    | .error _ => db

/-- The database after handling a sequence of timestamped requests. -/
def steps (hashFn : String → String) (db : DB) : List (Req × Nat) → DB
  | [] => db
  | (r, now) :: rest => steps hashFn (step hashFn db r now) rest

/-- Well-formedness of the database: primary keys are unique (what the
relational engine guarantees). -/
def WFdb (db : DB) : Prop :=
  (db.tasks.map (fun t => t.id)).Nodup ∧
  (db.users.map (fun u => u.id)).Nodup

/-- A task id currently absent from the table. Without AUTOINCREMENT an
absent id stays absent only until a create reuses it: a new row takes
`maxId + 1`, which can coincide with the id of a previously deleted
highest-id row. -/
def DeadId (i : Int) (db : DB) : Prop :=
  ∀ t ∈ db.tasks, (t.id : Int) ≠ i

/-- Whether a request is a task creation (the only request kind that
inserts into the task table and can thus reuse a deleted id). -/
def Req.isTaskCreate : Req → Bool
  | .create _ _ => true
  | _ => false

/-! ## Data model of `routes/tasks.py` (earlier unscoped version) -/

/-- `TaskSize` of `models.py`: the only sizes pydantic admits. -/
inductive TaskSize where
  | tiny
  | medium
  | big
  deriving DecidableEq, Repr

/-- A row of the unscoped `tasks` table as selected by the routes
(`SELECT id, title, size, category, importance, due_date, status`).
The `size` column holds a valid `TaskSize`, since every insert goes
through the validated `TaskCreate` schema. -/
structure Row where
  id : Int
  title : String
  size : TaskSize
  category : Option String
  importance : Option Int
  dueDate : Option Nat
  status : String
  deriving DecidableEq, Repr

/-- `Task` of `models.py` as the routes construct it from a row:
`is_routine` and `recurrence` keep their schema defaults. -/
structure RTask where
  id : Int
  title : String
  size : TaskSize
  category : Option String
  importance : Option Int
  dueDate : Option Nat
  status : String
  isRoutine : Bool
  recurrence : Option String
  deriving DecidableEq, Repr

/-- Row-to-model conversion performed in each route's result loop. -/
def taskOfRow (r : Row) : RTask :=
  { id := r.id
    title := r.title
    size := r.size
    category := r.category
    importance := r.importance
    dueDate := r.dueDate
    status := r.status
    isRoutine := false
    recurrence := none }

/-- Model of `random.choice`: an arbitrary element, selected by an
arbitrary index reduced modulo the length (covers every draw). -/
def pick (l : List α) (c : Nat) : Option α := l.get? (c % l.length)

/-- The `all_tasks` list of `get_random_focus_tasks`: the pending rows
converted to `Task` models. -/
def pendingTasks (table : List Row) : List RTask :=
  (table.filter (fun r => r.status == "pending")).map taskOfRow

/-- One of the `tiny_tasks` / `medium_tasks` / `big_tasks` buckets of
`get_random_focus_tasks`. -/
def sizeBucket (sz : TaskSize) (tasks : List RTask) : List RTask :=
  tasks.filter (fun t => t.size == sz)

/-- The `selected` list after the one-choice-per-non-empty-bucket phase:
`random.choice` on each bucket is modelled by `pick` with the draws
`ct`, `cm`, `cb`. -/
def bucketPicks (tasks : List RTask) (ct cm cb : Nat) : List RTask :=
  (pick (sizeBucket TaskSize.tiny tasks) ct).toList ++
    (pick (sizeBucket TaskSize.medium tasks) cm).toList ++
    (pick (sizeBucket TaskSize.big tasks) cb).toList

/-- `get_random_focus_tasks` of `routes/tasks.py`: bucket the pending
tasks by size, draw one from each non-empty bucket, then if fewer than 3
were drawn fill up to 3 from a shuffle of the not-yet-selected tasks
(`remaining = [t for t in all_tasks if t not in selected]`). `ct cm cb`
supply the three `random.choice` draws and `shuffle` the
`random.shuffle` permutation. -/
def getRandomFocusTasks (table : List Row) (ct cm cb : Nat)
    (shuffle : List RTask → List RTask) : List RTask :=
  if (bucketPicks (pendingTasks table) ct cm cb).length < 3 then
    bucketPicks (pendingTasks table) ct cm cb ++
      (shuffle ((pendingTasks table).filter
        (fun t => !((bucketPicks (pendingTasks table) ct cm cb).contains t)))).take
        (3 - (bucketPicks (pendingTasks table) ct cm cb).length)
  else bucketPicks (pendingTasks table) ct cm cb

/-- `list_tasks` of `routes/tasks.py`: filter by status only when the
query parameter is exactly `pending` or `completed`, else return the
whole table; always ordered by id ascending. -/
def listTasks (table : List Row) (status : Option String) : List RTask :=
  (List.insertionSort (fun a b : Row => a.id ≤ b.id)
    (if status = some "pending" ∨ status = some "completed" then
      table.filter (fun r => some r.status == status)
    else table)).map taskOfRow

/-! ## Fixtures used by witnesses and counterexamples -/

/-- A registered sample user. -/
def userA : MUser := ⟨1, "a@example.com", "ha", 0⟩

/-- A second registered sample user. -/
def userB : MUser := ⟨2, "b@example.com", "hb", 0⟩

/-- A sample task record with the given id, size, status, owner and
timestamps. -/
def mkTask (i : Nat) (sz st : String) (uid c u : Nat) : MTask :=
  ⟨i, "t", sz, "general", st, 1, none, false, none, c, u, uid⟩

/-- A sample row of the unscoped table with the given id, size and
status. -/
def mkRow (i : Int) (sz : TaskSize) (st : String) : Row :=
  ⟨i, "t", sz, none, none, none, st⟩

/-- A database with four pending tasks owned by `userA`. -/
def dbFour : DB :=
  ⟨[userA], [mkTask 1 "tiny" "pending" 1 0 0, mkTask 2 "tiny" "pending" 1 1 1,
    mkTask 3 "medium" "pending" 1 2 2, mkTask 4 "big" "pending" 1 3 3]⟩

/-- A database with one pending and one completed task owned by
`userA`. -/
def dbMixed : DB :=
  ⟨[userA], [mkTask 1 "tiny" "completed" 1 0 9, mkTask 2 "big" "pending" 1 1 1]⟩

/-- A database with a single pending task owned by `userA`. -/
def dbOne : DB := ⟨[userA], [mkTask 1 "tiny" "pending" 1 0 0]⟩

/-- `dbOne` after its only task was deleted. -/
def dbNoTasks : DB := ⟨[userA], []⟩

/-- The database left by deleting task 2 of `dbFour`. -/
def dbDelete : DB :=
  ⟨[userA], [mkTask 1 "tiny" "pending" 1 0 0, mkTask 3 "medium" "pending" 1 2 2,
    mkTask 4 "big" "pending" 1 3 3]⟩

/-- A sample creation payload. -/
def payloadX : TaskCreate := ⟨"x", "tiny", "general", 1, none, false, none⟩

/-- A request history: a credential-less create followed by completing the
created task. -/
def reqsC7 : List (Req × Nat) := [(Req.create none payloadX, 0), (Req.complete none 1, 1)]

/-- The task that the history `reqsC7` leaves in the store. -/
def tC7 : MTask := ⟨1, "x", "tiny", "general", "completed", 1, none, false, none, 0, 1, 1⟩

/-- The demo user as lazily created at instant 5 with identity hashing. -/
def demoU5 : MUser := ⟨1, demoEmail, "demo", 5⟩

/-- The fresh database right after `demoU5` was lazily created. -/
def demoDB5 : DB := ⟨[demoU5], []⟩

/-- A sample unscoped table: three pending rows of distinct sizes plus a
completed one. -/
def rowsFour : List Row :=
  [mkRow 1 TaskSize.tiny "pending", mkRow 2 TaskSize.medium "pending",
    mkRow 3 TaskSize.big "pending", mkRow 4 TaskSize.tiny "completed"]

/-! # Theorems -/

/-! ## Decimal strings -/

theorem decVal_decChar {d : Nat} (h : d < 10) : decVal (decChar d) = d := by
  interval_cases d <;> decide

theorem isDigit_decChar {d : Nat} (h : d < 10) : (decChar d).isDigit = true := by
  interval_cases d <;> decide

theorem not_ws_decChar {d : Nat} (h : d < 10) : (decChar d).isWhitespace = false := by
  interval_cases d <;> decide

theorem decChar_ne_sign {d : Nat} (h : d < 10) : decChar d ≠ '-' ∧ decChar d ≠ '+' := by
  interval_cases d <;> decide

theorem natDigitsAux_lt (fuel : Nat) : ∀ (n : Nat), ∀ d ∈ natDigitsAux fuel n, d < 10 := by
  induction fuel with
  | zero => intro n d hd; simp [natDigitsAux] at hd
  | succ fuel ih =>
    intro n d hd
    match n with
    | 0 => simp [natDigitsAux] at hd
    | m + 1 =>
      simp only [natDigitsAux, List.mem_cons] at hd
      rcases hd with h | h
      · subst h; exact Nat.mod_lt _ (by omega)
      · exact ih _ d h

theorem digitsVal_natDigitsAux (fuel : Nat) :
    ∀ n : Nat, n ≤ fuel → digitsVal (natDigitsAux fuel n) = n := by
  induction fuel with
  | zero => intro n h; interval_cases n; simp [natDigitsAux, digitsVal]
  | succ fuel ih =>
    intro n h
    match n with
    | 0 => simp [natDigitsAux, digitsVal]
    | m + 1 =>
      have hdiv : (m + 1) / 10 ≤ fuel := by
        have := Nat.div_lt_self (Nat.succ_pos m) (by omega : 1 < 10)
        omega
      simp only [natDigitsAux, digitsVal, List.foldr_cons]
      have := ih ((m + 1) / 10) hdiv
      simp only [digitsVal] at this
      rw [this]
      omega

theorem dropWhile_eq_self_of_all {p : Char → Bool} {cs : List Char}
    (h : ∀ c ∈ cs, p c = false) : cs.dropWhile p = cs := by
  cases cs with
  | nil => rfl
  | cons c rest =>
    rw [List.dropWhile_cons]
    simp [h c (List.mem_cons_self _ _)]

theorem stripWs_eq_self {cs : List Char}
    (h : ∀ c ∈ cs, c.isWhitespace = false) : stripWs cs = cs := by
  unfold stripWs
  rw [dropWhile_eq_self_of_all h, dropWhile_eq_self_of_all (by simpa using h),
    List.reverse_reverse]

theorem natDecDigits_ne_nil {n : Nat} (h : 0 < n) : natDecDigits n ≠ [] := by
  match n, h with
  | m + 1, _ => simp [natDecDigits, natDigitsAux]

theorem digitsVal_natDecDigits (n : Nat) : digitsVal (natDecDigits n) = n :=
  digitsVal_natDigitsAux n n (Nat.le_refl n)

theorem foldl_decVal (L : List Nat) (hL : ∀ d ∈ L, d < 10) (a : Nat) :
    (L.reverse.map decChar).foldl (fun a c => 10 * a + decVal c) a =
      L.reverse.foldl (fun a d => 10 * a + d) a := by
  rw [List.foldl_map]
  exact List.foldl_ext _ _ a (fun b d hd => by
    rw [decVal_decChar (hL d (List.mem_reverse.mp hd))])

theorem foldl_rev_digits (L : List Nat) (a : Nat) :
    L.reverse.foldl (fun a d => 10 * a + d) a =
      L.foldr (fun d a => d + 10 * a) a := by
  rw [List.foldl_reverse]
  exact List.foldr_ext _ _ a (fun d hd b => by omega)

/-- Round trip underlying the login token: Python `int(str(n)) == n`. -/
theorem pyInt_pyStrNat (n : Nat) : pyInt (pyStrNat n) = some (n : Int) := by
  by_cases h0 : n = 0
  · subst h0; decide
  · have hpos : 0 < n := Nat.pos_of_ne_zero h0
    have hlt : ∀ d ∈ natDecDigits n, d < 10 := natDigitsAux_lt n n
    set cs := (natDecDigits n).reverse.map decChar with hcsdef
    have hnws : ∀ c ∈ cs, c.isWhitespace = false := by
      intro c hc
      rcases List.mem_map.mp hc with ⟨d, hd, rfl⟩
      exact not_ws_decChar (hlt d (List.mem_reverse.mp hd))
    have hdig : ∀ c ∈ cs, c.isDigit = true := by
      intro c hc
      rcases List.mem_map.mp hc with ⟨d, hd, rfl⟩
      exact isDigit_decChar (hlt d (List.mem_reverse.mp hd))
    have hsign : ∀ c ∈ cs, c ≠ '-' ∧ c ≠ '+' := by
      intro c hc
      rcases List.mem_map.mp hc with ⟨d, hd, rfl⟩
      exact decChar_ne_sign (hlt d (List.mem_reverse.mp hd))
    have hmk : pyStrNat n = ⟨cs⟩ := by
      simp [pyStrNat, h0, hcsdef]
    have hne : cs ≠ [] := by
      rw [hcsdef]
      intro hc
      exact natDecDigits_ne_nil hpos (by simpa using hc)
    have hval : cs.foldl (fun a c => 10 * a + decVal c) 0 = n := by
      rw [hcsdef, foldl_decVal _ hlt 0, foldl_rev_digits]
      exact digitsVal_natDecDigits n
    have hdec : decValChars? cs = some n := by
      rw [decValChars?, if_pos ⟨hne, by rw [List.all_eq_true]; exact hdig⟩, hval]
    obtain ⟨c, rest, hcs⟩ := List.exists_cons_of_ne_nil hne
    have hcmem : c ∈ cs := by rw [hcs]; exact List.mem_cons_self _ _
    rw [hmk]
    show pyIntChars (stripWs cs) = some (n : Int)
    rw [stripWs_eq_self hnws, hcs, pyIntChars]
    rw [if_neg (hsign c hcmem).1, if_neg (hsign c hcmem).2, ← hcs, hdec]
    rfl

/-! ## List helpers -/

theorem find?_eq_none_iff {p : α → Bool} {l : List α} :
    l.find? p = none ↔ ∀ x ∈ l, ¬ p x := List.find?_eq_none

theorem find?_eq_some_of_unique {p : α → Bool} {l : List α} {x : α}
    (hx : x ∈ l) (hpx : p x = true) (huniq : ∀ y ∈ l, p y = true → y = x) :
    l.find? p = some x := by
  induction l with
  | nil => cases hx
  | cons a rest ih =>
    rw [List.find?_cons]
    rcases List.mem_cons.mp hx with rfl | hmem
    · simp [hpx]
    · by_cases hpa : p a = true
      · have := huniq a (List.mem_cons_self _ _) hpa
        subst this
        simp [hpx]
      · simp only [Bool.not_eq_true] at hpa
        simp [hpa]
        exact ih hmem (fun y hy hpy => huniq y (List.mem_cons_of_mem _ hy) hpy)

theorem find?_append_of_none {p : α → Bool} {l1 l2 : List α}
    (h : ∀ x ∈ l1, p x = false) : (l1 ++ l2).find? p = l2.find? p := by
  induction l1 with
  | nil => rfl
  | cons a rest ih =>
    rw [List.cons_append, List.find?_cons, h a (List.mem_cons_self _ _)]
    exact ih (fun x hx => h x (List.mem_cons_of_mem _ hx))

theorem mem_updFirst {p : α → Bool} {f : α → α} {l : List α} {y : α}
    (hy : y ∈ updFirst p f l) : y ∈ l ∨ ∃ x ∈ l, y = f x := by
  induction l with
  | nil => cases hy
  | cons a rest ih =>
    rw [updFirst] at hy
    by_cases hpa : p a
    · rw [if_pos hpa] at hy
      rcases List.mem_cons.mp hy with rfl | hmem
      · exact Or.inr ⟨a, List.mem_cons_self _ _, rfl⟩
      · exact Or.inl (List.mem_cons_of_mem _ hmem)
    · rw [if_neg hpa] at hy
      rcases List.mem_cons.mp hy with rfl | hmem
      · exact Or.inl (List.mem_cons_self _ _)
      · rcases ih hmem with h | ⟨x, hx, hfx⟩
        · exact Or.inl (List.mem_cons_of_mem _ h)
        · exact Or.inr ⟨x, List.mem_cons_of_mem _ hx, hfx⟩

theorem map_updFirst {p : α → Bool} {f : α → α} {g : α → β} (l : List α)
    (h : ∀ x, g (f x) = g x) : (updFirst p f l).map g = l.map g := by
  induction l with
  | nil => rfl
  | cons a rest ih =>
    rw [updFirst]
    by_cases hpa : p a
    · rw [if_pos hpa]
      simp [h a]
    · rw [if_neg hpa]
      simp [ih]

theorem removeFirst_sublist (p : α → Bool) (l : List α) :
    (removeFirst p l).Sublist l := by
  induction l with
  | nil => exact List.Sublist.refl []
  | cons a rest ih =>
    rw [removeFirst]
    by_cases hpa : p a
    · rw [if_pos hpa]
      exact List.sublist_cons_self a rest
    · rw [if_neg hpa]
      exact List.Sublist.cons₂ a ih

theorem removeFirst_clears {g : α → β} {p : α → Bool} {l : List α} {x : α}
    (hnd : (l.map g).Nodup) (hfind : l.find? p = some x)
    (hall : ∀ y ∈ l, p y = true → g y = g x) :
    ∀ y ∈ removeFirst p l, g y ≠ g x := by
  induction l with
  | nil => intro y hy; cases hy
  | cons a rest ih =>
    rw [List.map_cons, List.nodup_cons] at hnd
    rw [removeFirst]
    by_cases hpa : p a = true
    · rw [if_pos hpa]
      rw [List.find?_cons_of_pos _ hpa] at hfind
      injection hfind with hax
      subst hax
      intro y hy hgy
      exact hnd.1 (hgy ▸ List.mem_map_of_mem g hy)
    · rw [if_neg hpa]
      rw [List.find?_cons_of_neg _ (by simpa using hpa)] at hfind
      intro y hy hgy
      rcases List.mem_cons.mp hy with rfl | hmem
      · have hxmem : x ∈ rest := List.mem_of_find?_eq_some hfind
        exact hnd.1 (hgy ▸ List.mem_map_of_mem g hxmem)
      · exact ih hnd.2 hfind
          (fun z hz hpz => hall z (List.mem_cons_of_mem _ hz) hpz) y hmem hgy

/-! ## Operation-level lemmas over `main.py` -/

theorem ownedBy_iff {taskId : Int} {user : MUser} {t : MTask} :
    ownedBy taskId user t = true ↔ (t.id : Int) = taskId ∧ t.userId = user.id := by
  simp [ownedBy]

theorem completeTask_notFound_iff (db : DB) (taskId : Int) (user : MUser) (now : Nat) :
    errStatus? (completeTask db taskId user now) = some 404 ↔
      ¬ ∃ t ∈ db.tasks, (t.id : Int) = taskId ∧ t.userId = user.id := by
  unfold completeTask
  cases hfind : db.tasks.find? (ownedBy taskId user) with
  | none =>
    refine iff_of_true rfl ?_
    rintro ⟨t, ht, h1, h2⟩
    exact absurd (ownedBy_iff.mpr ⟨h1, h2⟩) (by simpa using find?_eq_none_iff.mp hfind t ht)
  | some t =>
    refine iff_of_false (by simp [errStatus?]) ?_
    intro h
    exact h ⟨t, List.mem_of_find?_eq_some hfind, ownedBy_iff.mp (List.find?_some hfind)⟩

theorem deleteTask_notFound_iff (db : DB) (taskId : Int) (user : MUser) :
    errStatus? (deleteTask db taskId user) = some 404 ↔
      ¬ ∃ t ∈ db.tasks, (t.id : Int) = taskId ∧ t.userId = user.id := by
  unfold deleteTask
  cases hfind : db.tasks.find? (ownedBy taskId user) with
  | none =>
    refine iff_of_true rfl ?_
    rintro ⟨t, ht, h1, h2⟩
    exact absurd (ownedBy_iff.mpr ⟨h1, h2⟩) (by simpa using find?_eq_none_iff.mp hfind t ht)
  | some t =>
    refine iff_of_false (by simp [errStatus?]) ?_
    intro h
    exact h ⟨t, List.mem_of_find?_eq_some hfind, ownedBy_iff.mp (List.find?_some hfind)⟩

/-- Identity resolution never touches the task table. -/
theorem gcodu_tasks {hashFn : String → String} {db : DB} {tok : Option String}
    {now : Nat} {u : MUser} {db2 : DB}
    (h : getCurrentOrDemoUser hashFn db tok now = .ok (u, db2)) :
    db2.tasks = db.tasks := by
  unfold getCurrentOrDemoUser at h
  by_cases ht : pyTruthy tok = true
  · rw [if_pos ht] at h
    cases hu : getUserFromToken db (tok.getD "") with
    | error e => rw [hu] at h; cases h
    | ok v =>
      rw [hu] at h
      injection h with h2
      injection h2 with _ hdb
      rw [← hdb]
  · rw [if_neg ht] at h
    cases hfind : db.users.find? (fun v => v.email == demoEmail) with
    | some v =>
      rw [hfind] at h
      injection h with h2
      injection h2 with _ hdb
      rw [← hdb]
    | none =>
      rw [hfind] at h
      injection h with h2
      injection h2 with _ hdb
      rw [← hdb]

/-- Identity resolution either leaves the user table alone or appends the
demo user at the next SQLite rowid. -/
theorem gcodu_users {hashFn : String → String} {db : DB} {tok : Option String}
    {now : Nat} {u : MUser} {db2 : DB}
    (h : getCurrentOrDemoUser hashFn db tok now = .ok (u, db2)) :
    db2.users = db.users ∨
      db2.users = db.users ++ [⟨nextUserIdOf db, demoEmail, hashFn "demo", now⟩] := by
  unfold getCurrentOrDemoUser at h
  by_cases ht : pyTruthy tok = true
  · rw [if_pos ht] at h
    cases hu : getUserFromToken db (tok.getD "") with
    | error e => rw [hu] at h; cases h
    | ok v =>
      rw [hu] at h
      injection h with h2
      injection h2 with _ hdb
      rw [← hdb]
      exact Or.inl rfl
  · rw [if_neg ht] at h
    cases hfind : db.users.find? (fun v => v.email == demoEmail) with
    | some v =>
      rw [hfind] at h
      injection h with h2
      injection h2 with _ hdb
      rw [← hdb]
      exact Or.inl rfl
    | none =>
      rw [hfind] at h
      injection h with h2
      injection h2 with _ hdb
      rw [← hdb]
      exact Or.inr rfl

theorem le_maxId {l : List Nat} : ∀ x ∈ l, x ≤ maxId l := by
  induction l with
  | nil => intro x hx; cases hx
  | cons a rest ih =>
    intro x hx
    rw [maxId]
    rcases List.mem_cons.mp hx with rfl | h
    · exact Nat.le_max_left _ _
    · exact Nat.le_trans (ih x h) (Nat.le_max_right _ _)

theorem nodup_ids_append_fresh {α : Type} {l : List α} {f : α → Nat} {x : α}
    (hnd : (l.map f).Nodup) (hx : f x = maxId (l.map f) + 1) :
    ((l ++ [x]).map f).Nodup := by
  rw [List.map_append, List.nodup_append]
  refine ⟨hnd, List.nodup_singleton _, ?_⟩
  intro a ha hb
  simp only [List.map_cons, List.map_nil, List.mem_singleton] at hb
  subst hb
  have := le_maxId _ ha
  omega

theorem registerUser_shape {hashFn : String → String} {db : DB} {e p : String}
    {now : Nat} {u : MUser} {db2 : DB}
    (h : registerUser hashFn db e p now = .ok (u, db2)) :
    u.id = nextUserIdOf db ∧ db2.users = db.users ++ [u] ∧
      db2.tasks = db.tasks := by
  unfold registerUser at h
  cases hfind : db.users.find? (fun v => v.email == e) with
  | some v => rw [hfind] at h; cases h
  | none =>
    rw [hfind] at h
    injection h with h2
    injection h2 with hu hdb
    subst hu
    rw [← hdb]
    exact ⟨rfl, rfl, rfl⟩

theorem createTask_shape {db : DB} {payload : TaskCreate} {u : MUser}
    {now : Nat} {t : MTask} {db2 : DB}
    (h : createTask db payload u now = .ok (t, db2)) :
    t.id = nextTaskIdOf db ∧ t.status = "pending" ∧
      db2.tasks = db.tasks ++ [t] ∧ db2.users = db.users := by
  unfold createTask at h
  injection h with h2
  injection h2 with ht hdb
  subst ht
  rw [← hdb]
  exact ⟨rfl, rfl, rfl, rfl⟩

theorem completeTask_shape {db : DB} {taskId : Int} {u : MUser}
    {now : Nat} {t2 : MTask} {db2 : DB}
    (h : completeTask db taskId u now = .ok (t2, db2)) :
    (∃ t ∈ db.tasks, db.tasks.find? (ownedBy taskId u) = some t ∧
      t2 = { t with status := "completed", updatedAt := now }) ∧
    db2.tasks = updFirst (ownedBy taskId u)
      (fun x => { x with status := "completed", updatedAt := now }) db.tasks ∧
    db2.users = db.users := by
  unfold completeTask at h
  cases hfind : db.tasks.find? (ownedBy taskId u) with
  | none => rw [hfind] at h; cases h
  | some t =>
    rw [hfind] at h
    injection h with h2
    injection h2 with ht hdb
    subst ht
    rw [← hdb]
    exact ⟨⟨t, List.mem_of_find?_eq_some hfind, rfl, rfl⟩, rfl, rfl⟩

theorem deleteTask_shape {db : DB} {taskId : Int} {u : MUser} {db2 : DB}
    (h : deleteTask db taskId u = .ok db2) :
    db2.tasks = removeFirst (ownedBy taskId u) db.tasks ∧
    db2.users = db.users := by
  unfold deleteTask at h
  cases hfind : db.tasks.find? (ownedBy taskId u) with
  | none => rw [hfind] at h; cases h
  | some t =>
    rw [hfind] at h
    injection h with hdb
    rw [← hdb]
    exact ⟨rfl, rfl⟩

/-! Equations computing `step` per request kind and outcome. -/

theorem step_register_err {hashFn : String → String} {db : DB} {e p : String}
    {now : Nat} {er : Err} (h : registerUser hashFn db e p now = .error er) :
    step hashFn db (.register e p) now = db := by
  show (match registerUser hashFn db e p now with
    | .ok (_, db2) => db2 | .error _ => db) = db
  rw [h]

theorem step_register_ok {hashFn : String → String} {db : DB} {e p : String}
    {now : Nat} {u : MUser} {db2 : DB}
    (h : registerUser hashFn db e p now = .ok (u, db2)) :
    step hashFn db (.register e p) now = db2 := by
  show (match registerUser hashFn db e p now with
    | .ok (_, db2) => db2 | .error _ => db) = db2
  rw [h]

theorem step_login_eq (hashFn : String → String) (db : DB) (e p : String)
    (now : Nat) : step hashFn db (.doLogin e p) now = db := rfl

theorem step_focus_err {hashFn : String → String} {db : DB} {tok : Option String}
    {now : Nat} {er : Err} (h : getCurrentOrDemoUser hashFn db tok now = .error er) :
    step hashFn db (.focus tok) now = db := by
  show (match getCurrentOrDemoUser hashFn db tok now with
    | .ok (_, db2) => db2 | .error _ => db) = db
  rw [h]

theorem step_focus_ok {hashFn : String → String} {db : DB} {tok : Option String}
    {now : Nat} {u : MUser} {db2 : DB}
    (h : getCurrentOrDemoUser hashFn db tok now = .ok (u, db2)) :
    step hashFn db (.focus tok) now = db2 := by
  show (match getCurrentOrDemoUser hashFn db tok now with
    | .ok (_, db2) => db2 | .error _ => db) = db2
  rw [h]

theorem step_completedList_err {hashFn : String → String} {db : DB}
    {tok : Option String} {now : Nat} {er : Err}
    (h : getCurrentOrDemoUser hashFn db tok now = .error er) :
    step hashFn db (.completedList tok) now = db := by
  show (match getCurrentOrDemoUser hashFn db tok now with
    | .ok (_, db2) => db2 | .error _ => db) = db
  rw [h]

theorem step_completedList_ok {hashFn : String → String} {db : DB}
    {tok : Option String} {now : Nat} {u : MUser} {db2 : DB}
    (h : getCurrentOrDemoUser hashFn db tok now = .ok (u, db2)) :
    step hashFn db (.completedList tok) now = db2 := by
  show (match getCurrentOrDemoUser hashFn db tok now with
    | .ok (_, db2) => db2 | .error _ => db) = db2
  rw [h]

theorem step_create_err {hashFn : String → String} {db : DB} {tok : Option String}
    {payload : TaskCreate} {now : Nat} {er : Err}
    (h : getCurrentOrDemoUser hashFn db tok now = .error er) :
    step hashFn db (.create tok payload) now = db := by
  show (match getCurrentOrDemoUser hashFn db tok now with
    | .ok (u, db2) =>
      match createTask db2 payload u now with
      | .ok (_, db3) => db3 | .error _ => db2
    | .error _ => db) = db
  rw [h]

theorem step_create_ok {hashFn : String → String} {db : DB} {tok : Option String}
    {payload : TaskCreate} {now : Nat} {u : MUser} {db2 : DB} {t : MTask} {db3 : DB}
    (h : getCurrentOrDemoUser hashFn db tok now = .ok (u, db2))
    (h2 : createTask db2 payload u now = .ok (t, db3)) :
    step hashFn db (.create tok payload) now = db3 := by
  show (match getCurrentOrDemoUser hashFn db tok now with
    | .ok (u, db2) =>
      match createTask db2 payload u now with
      | .ok (_, db3) => db3 | .error _ => db2
    | .error _ => db) = db3
  rw [h]
  show (match createTask db2 payload u now with
    | .ok (_, db3) => db3 | .error _ => db2) = db3
  rw [h2]

theorem step_complete_err {hashFn : String → String} {db : DB} {tok : Option String}
    {taskId : Int} {now : Nat} {er : Err}
    (h : getCurrentOrDemoUser hashFn db tok now = .error er) :
    step hashFn db (.complete tok taskId) now = db := by
  show (match getCurrentOrDemoUser hashFn db tok now with
    | .ok (u, db2) =>
      match completeTask db2 taskId u now with
      | .ok (_, db3) => db3 | .error _ => db2
    | .error _ => db) = db
  rw [h]

theorem step_complete_notFound {hashFn : String → String} {db : DB}
    {tok : Option String} {taskId : Int} {now : Nat} {u : MUser} {db2 : DB} {er : Err}
    (h : getCurrentOrDemoUser hashFn db tok now = .ok (u, db2))
    (h2 : completeTask db2 taskId u now = .error er) :
    step hashFn db (.complete tok taskId) now = db2 := by
  show (match getCurrentOrDemoUser hashFn db tok now with
    | .ok (u, db2) =>
      match completeTask db2 taskId u now with
      | .ok (_, db3) => db3 | .error _ => db2
    | .error _ => db) = db2
  rw [h]
  show (match completeTask db2 taskId u now with
    | .ok (_, db3) => db3 | .error _ => db2) = db2
  rw [h2]

theorem step_complete_ok {hashFn : String → String} {db : DB} {tok : Option String}
    {taskId : Int} {now : Nat} {u : MUser} {db2 : DB} {t2 : MTask} {db3 : DB}
    (h : getCurrentOrDemoUser hashFn db tok now = .ok (u, db2))
    (h2 : completeTask db2 taskId u now = .ok (t2, db3)) :
    step hashFn db (.complete tok taskId) now = db3 := by
  show (match getCurrentOrDemoUser hashFn db tok now with
    | .ok (u, db2) =>
      match completeTask db2 taskId u now with
      | .ok (_, db3) => db3 | .error _ => db2
    | .error _ => db) = db3
  rw [h]
  show (match completeTask db2 taskId u now with
    | .ok (_, db3) => db3 | .error _ => db2) = db3
  rw [h2]

theorem step_delete_err {hashFn : String → String} {db : DB} {tok : Option String}
    {taskId : Int} {now : Nat} {er : Err}
    (h : getCurrentOrDemoUser hashFn db tok now = .error er) :
    step hashFn db (.delete tok taskId) now = db := by
  show (match getCurrentOrDemoUser hashFn db tok now with
    | .ok (u, db2) =>
      match deleteTask db2 taskId u with
      | .ok db3 => db3 | .error _ => db2
    | .error _ => db) = db
  rw [h]

theorem step_delete_notFound {hashFn : String → String} {db : DB}
    {tok : Option String} {taskId : Int} {now : Nat} {u : MUser} {db2 : DB} {er : Err}
    (h : getCurrentOrDemoUser hashFn db tok now = .ok (u, db2))
    (h2 : deleteTask db2 taskId u = .error er) :
    step hashFn db (.delete tok taskId) now = db2 := by
  show (match getCurrentOrDemoUser hashFn db tok now with
    | .ok (u, db2) =>
      match deleteTask db2 taskId u with
      | .ok db3 => db3 | .error _ => db2
    | .error _ => db) = db2
  rw [h]
  show (match deleteTask db2 taskId u with
    | .ok db3 => db3 | .error _ => db2) = db2
  rw [h2]

theorem step_delete_ok {hashFn : String → String} {db : DB} {tok : Option String}
    {taskId : Int} {now : Nat} {u : MUser} {db2 : DB} {db3 : DB}
    (h : getCurrentOrDemoUser hashFn db tok now = .ok (u, db2))
    (h2 : deleteTask db2 taskId u = .ok db3) :
    step hashFn db (.delete tok taskId) now = db3 := by
  show (match getCurrentOrDemoUser hashFn db tok now with
    | .ok (u, db2) =>
      match deleteTask db2 taskId u with
      | .ok db3 => db3 | .error _ => db2
    | .error _ => db) = db3
  rw [h]
  show (match deleteTask db2 taskId u with
    | .ok db3 => db3 | .error _ => db2) = db3
  rw [h2]

/-- Everything one `step` can do to the task table. -/
theorem step_tasks_shape (hashFn : String → String) (db : DB) (r : Req) (now : Nat) :
    (step hashFn db r now).tasks = db.tasks ∨
    (∃ t : MTask, t.id = nextTaskIdOf db ∧ t.status = "pending" ∧
      (step hashFn db r now).tasks = db.tasks ++ [t]) ∨
    (∃ p : MTask → Bool, (step hashFn db r now).tasks =
      updFirst p (fun x => { x with status := "completed", updatedAt := now }) db.tasks) ∨
    (∃ p : MTask → Bool, (step hashFn db r now).tasks = removeFirst p db.tasks) := by
  cases r with
  | register email pw =>
    cases hreg : registerUser hashFn db email pw now with
    | error e => rw [step_register_err hreg]; exact Or.inl rfl
    | ok pr =>
      obtain ⟨u, db2⟩ := pr
      rcases registerUser_shape hreg with ⟨_, _, ht⟩
      rw [step_register_ok hreg]
      exact Or.inl ht
  | doLogin email pw => exact Or.inl rfl
  | focus tok =>
    cases hg : getCurrentOrDemoUser hashFn db tok now with
    | error e => rw [step_focus_err hg]; exact Or.inl rfl
    | ok pr =>
      obtain ⟨u, db2⟩ := pr
      rw [step_focus_ok hg]
      exact Or.inl (gcodu_tasks hg)
  | completedList tok =>
    cases hg : getCurrentOrDemoUser hashFn db tok now with
    | error e => rw [step_completedList_err hg]; exact Or.inl rfl
    | ok pr =>
      obtain ⟨u, db2⟩ := pr
      rw [step_completedList_ok hg]
      exact Or.inl (gcodu_tasks hg)
  | create tok payload =>
    cases hg : getCurrentOrDemoUser hashFn db tok now with
    | error e => rw [step_create_err hg]; exact Or.inl rfl
    | ok pr =>
      obtain ⟨u, db2⟩ := pr
      have ht : db2.tasks = db.tasks := gcodu_tasks hg
      cases hc : createTask db2 payload u now with
      | error e =>
        exact absurd hc (by unfold createTask; intro hx; cases hx)
      | ok pr2 =>
        obtain ⟨t, db3⟩ := pr2
        rcases createTask_shape hc with ⟨hid, hst, ht3, _⟩
        rw [step_create_ok hg hc]
        refine Or.inr (Or.inl ⟨t, ?_, hst, ?_⟩)
        · rw [hid]
          unfold nextTaskIdOf
          rw [ht]
        · rw [ht3, ht]
  | complete tok taskId =>
    cases hg : getCurrentOrDemoUser hashFn db tok now with
    | error e => rw [step_complete_err hg]; exact Or.inl rfl
    | ok pr =>
      obtain ⟨u, db2⟩ := pr
      have ht : db2.tasks = db.tasks := gcodu_tasks hg
      cases hc : completeTask db2 taskId u now with
      | error e =>
        rw [step_complete_notFound hg hc]
        exact Or.inl ht
      | ok pr2 =>
        obtain ⟨t2, db3⟩ := pr2
        rcases completeTask_shape hc with ⟨_, ht3, _⟩
        rw [step_complete_ok hg hc]
        refine Or.inr (Or.inr (Or.inl ⟨ownedBy taskId u, ?_⟩))
        rw [ht3, ht]
  | delete tok taskId =>
    cases hg : getCurrentOrDemoUser hashFn db tok now with
    | error e => rw [step_delete_err hg]; exact Or.inl rfl
    | ok pr =>
      obtain ⟨u, db2⟩ := pr
      have ht : db2.tasks = db.tasks := gcodu_tasks hg
      cases hc : deleteTask db2 taskId u with
      | error e =>
        rw [step_delete_notFound hg hc]
        exact Or.inl ht
      | ok db3 =>
        rcases deleteTask_shape hc with ⟨ht3, _⟩
        rw [step_delete_ok hg hc]
        refine Or.inr (Or.inr (Or.inr ⟨ownedBy taskId u, ?_⟩))
        rw [ht3, ht]

/-- Everything one `step` can do to the user table. -/
theorem step_users_shape (hashFn : String → String) (db : DB) (r : Req) (now : Nat) :
    (step hashFn db r now).users = db.users ∨
    (∃ u : MUser, u.id = nextUserIdOf db ∧
      (step hashFn db r now).users = db.users ++ [u]) := by
  cases r with
  | register email pw =>
    cases hreg : registerUser hashFn db email pw now with
    | error e => rw [step_register_err hreg]; exact Or.inl rfl
    | ok pr =>
      obtain ⟨u, db2⟩ := pr
      rcases registerUser_shape hreg with ⟨hid, hu, _⟩
      rw [step_register_ok hreg]
      exact Or.inr ⟨u, hid, hu⟩
  | doLogin email pw => exact Or.inl rfl
  | focus tok =>
    cases hg : getCurrentOrDemoUser hashFn db tok now with
    | error e => rw [step_focus_err hg]; exact Or.inl rfl
    | ok pr =>
      obtain ⟨u, db2⟩ := pr
      rw [step_focus_ok hg]
      rcases gcodu_users hg with hu | hu
      · exact Or.inl hu
      · exact Or.inr ⟨_, rfl, hu⟩
  | completedList tok =>
    cases hg : getCurrentOrDemoUser hashFn db tok now with
    | error e => rw [step_completedList_err hg]; exact Or.inl rfl
    | ok pr =>
      obtain ⟨u, db2⟩ := pr
      rw [step_completedList_ok hg]
      rcases gcodu_users hg with hu | hu
      · exact Or.inl hu
      · exact Or.inr ⟨_, rfl, hu⟩
  | create tok payload =>
    cases hg : getCurrentOrDemoUser hashFn db tok now with
    | error e => rw [step_create_err hg]; exact Or.inl rfl
    | ok pr =>
      obtain ⟨u, db2⟩ := pr
      cases hc : createTask db2 payload u now with
      | error e =>
        exact absurd hc (by unfold createTask; intro hx; cases hx)
      | ok pr2 =>
        obtain ⟨t, db3⟩ := pr2
        rcases createTask_shape hc with ⟨_, _, _, hu3⟩
        rw [step_create_ok hg hc]
        rcases gcodu_users hg with hu | hu
        · exact Or.inl (hu3.trans hu)
        · exact Or.inr ⟨_, rfl, hu3.trans hu⟩
  | complete tok taskId =>
    cases hg : getCurrentOrDemoUser hashFn db tok now with
    | error e => rw [step_complete_err hg]; exact Or.inl rfl
    | ok pr =>
      obtain ⟨u, db2⟩ := pr
      cases hc : completeTask db2 taskId u now with
      | error e =>
        rw [step_complete_notFound hg hc]
        rcases gcodu_users hg with hu | hu
        · exact Or.inl hu
        · exact Or.inr ⟨_, rfl, hu⟩
      | ok pr2 =>
        obtain ⟨t2, db3⟩ := pr2
        rcases completeTask_shape hc with ⟨_, _, hu3⟩
        rw [step_complete_ok hg hc]
        rcases gcodu_users hg with hu | hu
        · exact Or.inl (hu3.trans hu)
        · exact Or.inr ⟨_, rfl, hu3.trans hu⟩
  | delete tok taskId =>
    cases hg : getCurrentOrDemoUser hashFn db tok now with
    | error e => rw [step_delete_err hg]; exact Or.inl rfl
    | ok pr =>
      obtain ⟨u, db2⟩ := pr
      cases hc : deleteTask db2 taskId u with
      | error e =>
        rw [step_delete_notFound hg hc]
        rcases gcodu_users hg with hu | hu
        · exact Or.inl hu
        · exact Or.inr ⟨_, rfl, hu⟩
      | ok db3 =>
        rcases deleteTask_shape hc with ⟨_, hu3⟩
        rw [step_delete_ok hg hc]
        rcases gcodu_users hg with hu | hu
        · exact Or.inl (hu3.trans hu)
        · exact Or.inr ⟨_, rfl, hu3.trans hu⟩

theorem wf_initDB : WFdb initDB := ⟨List.Pairwise.nil, List.Pairwise.nil⟩

theorem wf_step {hashFn : String → String} {db : DB} {r : Req} {now : Nat}
    (hwf : WFdb db) : WFdb (step hashFn db r now) := by
  obtain ⟨w1, w2⟩ := hwf
  constructor
  · rcases step_tasks_shape hashFn db r now with ht | ⟨t, hid, _, ht⟩ | ⟨p, ht⟩ | ⟨p, ht⟩
    · rw [ht]; exact w1
    · rw [ht]; exact nodup_ids_append_fresh w1 hid
    · have hmap : (updFirst p (fun x => { x with status := "completed", updatedAt := now }) db.tasks).map (fun t => t.id) = db.tasks.map (fun t => t.id) :=
        map_updFirst db.tasks (fun x => rfl)
      rw [ht, hmap]
      exact w1
    · rw [ht]
      exact w1.sublist ((removeFirst_sublist p db.tasks).map _)
  · rcases step_users_shape hashFn db r now with hu | ⟨v, hid, hu⟩
    · rw [hu]; exact w2
    · rw [hu]; exact nodup_ids_append_fresh w2 hid

theorem wf_steps {hashFn : String → String} :
    ∀ (reqs : List (Req × Nat)) (db : DB), WFdb db → WFdb (steps hashFn db reqs) := by
  intro reqs
  induction reqs with
  | nil => intro db hwf; exact hwf
  | cons pr rest ih =>
    intro db hwf
    obtain ⟨r, now⟩ := pr
    exact ih _ (wf_step hwf)

/-- A request other than a task creation can never re-introduce an
absent task id: nothing but `POST /tasks` inserts into the task table. -/
theorem dead_step_noTaskCreate {i : Int} {hashFn : String → String} {db : DB}
    {r : Req} {now : Nat} (hr : r.isTaskCreate = false) (hd : DeadId i db) :
    DeadId i (step hashFn db r now) := by
  cases r with
  | create tok payload => simp [Req.isTaskCreate] at hr
  | register email pw =>
    cases hreg : registerUser hashFn db email pw now with
    | error e => rw [step_register_err hreg]; exact hd
    | ok pr =>
      obtain ⟨u, db2⟩ := pr
      rcases registerUser_shape hreg with ⟨_, _, ht⟩
      rw [step_register_ok hreg]
      intro t2 ht2
      rw [ht] at ht2
      exact hd t2 ht2
  | doLogin email pw => exact hd
  | focus tok =>
    cases hg : getCurrentOrDemoUser hashFn db tok now with
    | error e => rw [step_focus_err hg]; exact hd
    | ok pr =>
      obtain ⟨u, db2⟩ := pr
      rw [step_focus_ok hg]
      intro t2 ht2
      rw [gcodu_tasks hg] at ht2
      exact hd t2 ht2
  | completedList tok =>
    cases hg : getCurrentOrDemoUser hashFn db tok now with
    | error e => rw [step_completedList_err hg]; exact hd
    | ok pr =>
      obtain ⟨u, db2⟩ := pr
      rw [step_completedList_ok hg]
      intro t2 ht2
      rw [gcodu_tasks hg] at ht2
      exact hd t2 ht2
  | complete tok taskId =>
    cases hg : getCurrentOrDemoUser hashFn db tok now with
    | error e => rw [step_complete_err hg]; exact hd
    | ok pr =>
      obtain ⟨u, db2⟩ := pr
      have ht : db2.tasks = db.tasks := gcodu_tasks hg
      cases hc : completeTask db2 taskId u now with
      | error e =>
        rw [step_complete_notFound hg hc]
        intro t2 ht2
        rw [ht] at ht2
        exact hd t2 ht2
      | ok pr2 =>
        obtain ⟨tc, db3⟩ := pr2
        rcases completeTask_shape hc with ⟨_, ht3, _⟩
        rw [step_complete_ok hg hc]
        intro t2 ht2
        rw [ht3, ht] at ht2
        rcases mem_updFirst ht2 with h | ⟨x, hx, rfl⟩
        · exact hd t2 h
        · exact hd x hx
  | delete tok taskId =>
    cases hg : getCurrentOrDemoUser hashFn db tok now with
    | error e => rw [step_delete_err hg]; exact hd
    | ok pr =>
      obtain ⟨u, db2⟩ := pr
      have ht : db2.tasks = db.tasks := gcodu_tasks hg
      cases hc : deleteTask db2 taskId u with
      | error e =>
        rw [step_delete_notFound hg hc]
        intro t2 ht2
        rw [ht] at ht2
        exact hd t2 ht2
      | ok db3 =>
        rcases deleteTask_shape hc with ⟨ht3, _⟩
        rw [step_delete_ok hg hc]
        intro t2 ht2
        rw [ht3, ht] at ht2
        exact hd t2 ((removeFirst_sublist _ db.tasks).subset ht2)

theorem dead_steps_noTaskCreate {i : Int} {hashFn : String → String} :
    ∀ (reqs : List (Req × Nat)) (db : DB),
      (∀ pr ∈ reqs, (pr.1).isTaskCreate = false) → DeadId i db →
      DeadId i (steps hashFn db reqs) := by
  intro reqs
  induction reqs with
  | nil => intro db _ hd; exact hd
  | cons pr rest ih =>
    intro db hnc hd
    obtain ⟨r, now⟩ := pr
    exact ih _ (fun q hq => hnc q (List.mem_cons_of_mem _ hq))
      (dead_step_noTaskCreate (hnc (r, now) (List.mem_cons_self _ _)) hd)

theorem dead_of_deleteTask {db : DB} {tid : Int} {u : MUser} {db2 : DB}
    (hwf : WFdb db) (h : deleteTask db tid u = .ok db2) : DeadId tid db2 := by
  rcases deleteTask_shape h with ⟨ht, _⟩
  unfold deleteTask at h
  cases hfind : db.tasks.find? (ownedBy tid u) with
  | none => rw [hfind] at h; cases h
  | some t =>
    have htid : (t.id : Int) = tid := (ownedBy_iff.mp (List.find?_some hfind)).1
    intro y hy
    rw [ht] at hy
    have hclear := removeFirst_clears hwf.1 hfind
      (fun z _ hpz => by
        have h1 := (ownedBy_iff.mp hpz).1
        have hzz : (z.id : Int) = (t.id : Int) := by rw [h1, htid]
        exact_mod_cast hzz)
      y hy
    rw [← htid]
    intro hcontra
    exact hclear (by exact_mod_cast hcontra)

theorem notFound_of_dead {db : DB} {tid : Int} (u : MUser) (now : Nat)
    (hd : DeadId tid db) :
    errStatus? (completeTask db tid u now) = some 404 ∧
      errStatus? (deleteTask db tid u) = some 404 := by
  constructor
  · rw [completeTask_notFound_iff]
    rintro ⟨t, ht, h1, _⟩
    exact hd t ht h1
  · rw [deleteTask_notFound_iff]
    rintro ⟨t, ht, h1, _⟩
    exact hd t ht h1

/-- A completed task can never revert: whatever one request does, a task
that keeps its id keeps its `completed` status. This holds under the
SQLite id-reuse semantics because a freshly inserted task takes the id
`maxId + 1`, which exceeds the id of every task still present. -/
theorem completed_stays_step {hashFn : String → String} {db : DB} {r : Req}
    {now : Nat} {t t2 : MTask} (hwf : WFdb db) (ht : t ∈ db.tasks)
    (hst : t.status = "completed") (ht2 : t2 ∈ (step hashFn db r now).tasks)
    (hid : t2.id = t.id) : t2.status = "completed" := by
  rcases step_tasks_shape hashFn db r now with htk | ⟨tn, hidn, _, htk⟩ | ⟨p, htk⟩ | ⟨p, htk⟩
  · rw [htk] at ht2
    rw [List.inj_on_of_nodup_map hwf.1 ht2 ht hid]
    exact hst
  · rw [htk] at ht2
    rcases List.mem_append.mp ht2 with h | h
    · rw [List.inj_on_of_nodup_map hwf.1 h ht hid]
      exact hst
    · rcases List.mem_singleton.mp h with rfl
      have hle : t.id ≤ maxId (db.tasks.map (fun x => x.id)) :=
        le_maxId _ (List.mem_map_of_mem _ ht)
      have hfresh : t2.id = maxId (db.tasks.map (fun x => x.id)) + 1 := hidn
      omega
  · rw [htk] at ht2
    rcases mem_updFirst ht2 with h | ⟨x, hx, rfl⟩
    · rw [List.inj_on_of_nodup_map hwf.1 h ht hid]
      exact hst
    · rfl
  · rw [htk] at ht2
    have hsub := (removeFirst_sublist p db.tasks).subset ht2
    rw [List.inj_on_of_nodup_map hwf.1 hsub ht hid]
    exact hst

/-! ## Claim theorems: the `main.py` task lifecycle -/

/-- C8: for every user, the completed listing is (a permutation of) that
user's completed tasks sorted by `updated_at` descending, and the pending
listing is that user's pending tasks sorted by `created_at` ascending. -/
theorem listing_orders (db : DB) (u : MUser) :
    ((getFocusTasks db u).Perm (db.tasks.filter (pendingOf u)) ∧
      List.Sorted (fun a b : MTask => a.createdAt ≤ b.createdAt) (getFocusTasks db u)) ∧
    ((getCompletedTasks db u).Perm (db.tasks.filter (completedOf u)) ∧
      List.Sorted (fun a b : MTask => b.updatedAt ≤ a.updatedAt) (getCompletedTasks db u)) := by
  refine ⟨⟨List.perm_insertionSort _ _, ?_⟩, ⟨List.perm_insertionSort _ _, ?_⟩⟩
  · exact @List.sorted_insertionSort MTask _ _
      ⟨fun a b => Nat.le_total a.createdAt b.createdAt⟩
      ⟨fun a b c hab hbc => Nat.le_trans hab hbc⟩ _
  · exact @List.sorted_insertionSort MTask _ _
      ⟨fun a b => Nat.le_total b.updatedAt a.updatedAt⟩
      ⟨fun a b c hab hbc => Nat.le_trans hbc hab⟩ _

/-- C2 counterexample: on a store holding four pending tasks for the
caller, GET /tasks/focus returns four tasks, not at most three. -/
theorem focus_returns_four : ¬ (getFocusTasks dbFour userA).length ≤ 3 := by decide

/-- C2 (amended): GET /tasks/focus returns ALL of the caller's pending
tasks, ordered by `created_at` ascending — no 3-task cap and no
size-diversified selection. -/
theorem focus_returns_all_pending (db : DB) (u : MUser) :
    (getFocusTasks db u).length = (db.tasks.filter (pendingOf u)).length ∧
    (∀ t : MTask, t ∈ getFocusTasks db u ↔
      t ∈ db.tasks ∧ t.userId = u.id ∧ t.status = "pending") ∧
    List.Sorted (fun a b : MTask => a.createdAt ≤ b.createdAt) (getFocusTasks db u) := by
  have hperm : (getFocusTasks db u).Perm (db.tasks.filter (pendingOf u)) :=
    List.perm_insertionSort _ _
  refine ⟨hperm.length_eq, ?_, ?_⟩
  · intro t
    rw [hperm.mem_iff, List.mem_filter]
    simp [pendingOf, and_assoc]
  · exact @List.sorted_insertionSort MTask _ _
      ⟨fun a b => Nat.le_total a.createdAt b.createdAt⟩
      ⟨fun a b c hab hbc => Nat.le_trans hab hbc⟩ _

/-- C3 counterexample: a create request with an empty title and an
unrecognized size succeeds (no InvalidInput error is raised). -/
theorem create_empty_title_accepted :
    (createTask dbFour ⟨"", "gigantic", "general", 1, none, false, none⟩ userA 7).isOk = true := by
  decide

/-- C3 (amended): task creation in `main.py` never validates the payload:
it succeeds for every title and size, and the created task always starts
at status pending with `created_at = updated_at = now`. -/
theorem create_never_validates (db : DB) (payload : TaskCreate) (u : MUser) (now : Nat) :
    ∃ t db2, createTask db payload u now = .ok (t, db2) ∧ t.status = "pending" ∧
      t.title = payload.title ∧ t.size = payload.size ∧
      t.createdAt = now ∧ t.updatedAt = now ∧ t.userId = u.id :=
  ⟨_, _, rfl, rfl, rfl, rfl, rfl, rfl, rfl⟩

/-- C5 counterexample: delete is NOT terminal. On `dbOne` the delete of
task 1 succeeds, but SQLite assigns the next inserted row
`max(rowid) + 1`, so a subsequent credential-bearing create reuses id 1
and the complete of id 1 by the same caller then SUCCEEDS instead of
failing with NotFound. -/
theorem delete_then_create_revives_id :
    WFdb dbOne ∧
    deleteTask dbOne 1 userA = .ok dbNoTasks ∧
    (completeTask (steps (fun s => s) dbNoTasks [(Req.create (some "1") payloadX, 5)])
      1 userA 6).isOk = true :=
  ⟨by unfold WFdb; decide, by rfl, by decide⟩

/-- C5 (amended): complete and delete fail with NotFound exactly when no
task with that id is owned by the caller (a nonexistent id and another
owner's id are rejected identically); and after a successful delete of a
task, every subsequent complete or delete on that id by any caller fails
with NotFound AS LONG AS NO TASK CREATION INTERVENES — a later create
may reuse the deleted id, because the SQLite INTEGER PRIMARY KEY
(without AUTOINCREMENT) assigns `max(rowid) + 1`. -/
theorem notFound_scoping_and_delete_terminal (hashFn : String → String) (db : DB)
    (tid : Int) (u : MUser) (now : Nat) :
    (errStatus? (completeTask db tid u now) = some 404 ↔
      ¬ ∃ t ∈ db.tasks, (t.id : Int) = tid ∧ t.userId = u.id) ∧
    (errStatus? (deleteTask db tid u) = some 404 ↔
      ¬ ∃ t ∈ db.tasks, (t.id : Int) = tid ∧ t.userId = u.id) ∧
    (WFdb db → ∀ db2, deleteTask db tid u = .ok db2 →
      ∀ (reqs : List (Req × Nat)), (∀ pr ∈ reqs, (pr.1).isTaskCreate = false) →
      ∀ (v : MUser) (now2 : Nat),
        errStatus? (completeTask (steps hashFn db2 reqs) tid v now2) = some 404 ∧
        errStatus? (deleteTask (steps hashFn db2 reqs) tid v) = some 404) := by
  refine ⟨completeTask_notFound_iff db tid u now, deleteTask_notFound_iff db tid u, ?_⟩
  intro hwf db2 hdel reqs hnc v now2
  exact notFound_of_dead v now2
    (dead_steps_noTaskCreate reqs db2 hnc (dead_of_deleteTask hwf hdel))

/-- C5 witness: deleting task 2 of `dbFour`, then serving a
creation-free request, still leaves complete/delete of id 2 failing with
404, even for another caller. -/
theorem notFound_scoping_witness :
    WFdb dbFour ∧ deleteTask dbFour 2 userA = .ok dbDelete ∧
    (∀ pr ∈ [((Req.focus none : Req), (5 : Nat))], (pr.1).isTaskCreate = false) ∧
    (errStatus? (completeTask (steps (fun s => s) dbDelete [(Req.focus none, 5)]) 2 userB 6) = some 404 ∧
      errStatus? (deleteTask (steps (fun s => s) dbDelete [(Req.focus none, 5)]) 2 userB) = some 404) :=
  ⟨by unfold WFdb; decide, by rfl, by decide,
    (notFound_scoping_and_delete_terminal (fun s => s) dbFour 2 userA 0).2.2
      (by unfold WFdb; decide) dbDelete (by rfl) [(Req.focus none, 5)] (by decide) userB 6⟩

/-- C6: completing an already-completed task is accepted, leaves the
status completed and re-stamps `updated_at` to the time of the call. -/
theorem complete_idempotent (db : DB) (u : MUser) (t : MTask) (now : Nat)
    (hnd : (db.tasks.map (fun x => x.id)).Nodup) (ht : t ∈ db.tasks)
    (hown : t.userId = u.id) (_hst : t.status = "completed") :
    ∃ db2, completeTask db (t.id : Int) u now =
      .ok ({ t with status := "completed", updatedAt := now }, db2) := by
  have hpt : ownedBy (t.id : Int) u t = true := by
    simp [ownedBy, hown]
  have hfind : db.tasks.find? (ownedBy (t.id : Int) u) = some t := by
    refine find?_eq_some_of_unique ht hpt ?_
    intro y hy hpy
    have hyid : (y.id : Int) = (t.id : Int) := (ownedBy_iff.mp hpy).1
    exact List.inj_on_of_nodup_map hnd hy ht (by exact_mod_cast hyid)
  refine ⟨{ db with tasks := updFirst (ownedBy (t.id : Int) u) (fun x => { x with status := "completed", updatedAt := now }) db.tasks }, ?_⟩
  unfold completeTask
  rw [hfind]

/-- C6 witness: re-completing the already-completed task 1 of `dbMixed`
at time 42 succeeds and re-stamps `updated_at` to 42. -/
theorem complete_idempotent_witness :
    (mkTask 1 "tiny" "completed" 1 0 9).status = "completed" ∧
    ∃ db2, completeTask dbMixed ((mkTask 1 "tiny" "completed" 1 0 9).id : Int) userA 42 =
      .ok ({ mkTask 1 "tiny" "completed" 1 0 9 with status := "completed", updatedAt := 42 }, db2) :=
  ⟨by decide, complete_idempotent dbMixed userA (mkTask 1 "tiny" "completed" 1 0 9) 42
    (by decide) (by decide) (by decide) (by decide)⟩

/-- C7: statuses only move pending → completed: creation yields a pending
task, completion yields a completed task, and on any store reachable from
the fresh database, no request turns a completed task's status back (a
task that keeps its id keeps its completed status). -/
theorem status_pending_to_completed_only (hashFn : String → String) :
    (∀ (db : DB) (payload : TaskCreate) (u : MUser) (now : Nat) (t : MTask) (db2 : DB),
      createTask db payload u now = .ok (t, db2) → t.status = "pending") ∧
    (∀ (db : DB) (tid : Int) (u : MUser) (now : Nat) (t2 : MTask) (db2 : DB),
      completeTask db tid u now = .ok (t2, db2) → t2.status = "completed") ∧
    (∀ (reqs : List (Req × Nat)) (r : Req) (now : Nat) (t t2 : MTask),
      t ∈ (steps hashFn initDB reqs).tasks → t.status = "completed" →
      t2 ∈ (step hashFn (steps hashFn initDB reqs) r now).tasks → t2.id = t.id →
      t2.status = "completed") := by
  refine ⟨?_, ?_, ?_⟩
  · intro db payload u now t db2 h
    exact (createTask_shape h).2.1
  · intro db tid u now t2 db2 h
    rcases (completeTask_shape h).1 with ⟨t, _, _, ht2⟩
    rw [ht2]
  · intro reqs r now t t2 hmem hst hmem2 hid
    exact completed_stays_step (wf_steps reqs initDB wf_initDB) hmem hst hmem2 hid

/-- C7 witness: after a credential-less create and complete, the completed
task survives a further request with its status still completed. -/
theorem status_pending_to_completed_only_witness :
    (tC7 ∈ (steps (fun s => s) initDB reqsC7).tasks ∧ tC7.status = "completed" ∧
      tC7 ∈ (step (fun s => s) (steps (fun s => s) initDB reqsC7) (Req.focus none) 9).tasks) ∧
    tC7.status = "completed" :=
  ⟨⟨by decide, by decide, by decide⟩,
    (status_pending_to_completed_only (fun s => s)).2.2 reqsC7 (Req.focus none) 9 tC7 tC7
      (by decide) (by decide) (by decide) rfl⟩

/-! ## Equations for token resolution and login -/

theorem getUserFromToken_parseFail {db : DB} {s : String} (hparse : pyInt s = none) :
    getUserFromToken db s = .error ⟨401, "Invalid token"⟩ := by
  unfold getUserFromToken
  rw [hparse]

theorem getUserFromToken_unknown {db : DB} {s : String} {uid : Int}
    (hparse : pyInt s = some uid)
    (hfind : db.users.find? (fun v => (v.id : Int) == uid) = none) :
    getUserFromToken db s = .error ⟨401, "User not found for token"⟩ := by
  unfold getUserFromToken
  rw [hparse]
  show (match db.users.find? (fun v => (v.id : Int) == uid) with
    | none => Except.error (Err.mk 401 "User not found for token")
    | some v => Except.ok v) = Except.error (Err.mk 401 "User not found for token")
  rw [hfind]

theorem getUserFromToken_found {db : DB} {s : String} {uid : Int} {u : MUser}
    (hparse : pyInt s = some uid)
    (hfind : db.users.find? (fun v => (v.id : Int) == uid) = some u) :
    getUserFromToken db s = .ok u := by
  unfold getUserFromToken
  rw [hparse]
  show (match db.users.find? (fun v => (v.id : Int) == uid) with
    | none => Except.error (Err.mk 401 "User not found for token")
    | some v => Except.ok v) = Except.ok u
  rw [hfind]

theorem login_found {hashFn : String → String} {db : DB} {username password : String}
    {u : MUser} (hfind : db.users.find? (fun v => v.email == username) = some u)
    (hpw : (hashFn password == u.hashedPassword) = true) :
    login hashFn db username password = .ok (pyStrNat u.id) := by
  unfold login
  rw [hfind]
  show (if (hashFn password == u.hashedPassword) = true then Except.ok (pyStrNat u.id)
    else Except.error (Err.mk 401 "Incorrect email or password")) = Except.ok (pyStrNat u.id)
  rw [if_pos hpw]

/-! ## Claim theorems: identity resolution and login -/

/-- C4 counterexample: the empty credential string does not parse as an
id, yet identity resolution succeeds by falling back to the lazily
created demo identity instead of failing with Unauthenticated. -/
theorem empty_token_falls_back_to_demo :
    pyInt "" = none ∧
    getCurrentOrDemoUser (fun s => s) initDB (some "") 0 =
      .ok (⟨1, demoEmail, "demo", 0⟩, ⟨[⟨1, demoEmail, "demo", 0⟩], []⟩) :=
  ⟨rfl, rfl⟩

/-- C4 (amended): for every request carrying a NON-EMPTY credential
string, resolution returns the existing identity whose id the credential
decimally encodes, fails with 401 when the string does not parse or no
identity has that id, and never falls back to the demo identity; an empty
credential string, however, is treated like an absent one. -/
theorem token_resolution (hashFn : String → String) :
    (∀ (db : DB) (s : String), pyInt s = none →
      getUserFromToken db s = .error ⟨401, "Invalid token"⟩) ∧
    (∀ (db : DB) (s : String) (uid : Int), pyInt s = some uid →
      (∀ v ∈ db.users, (v.id : Int) ≠ uid) →
      getUserFromToken db s = .error ⟨401, "User not found for token"⟩) ∧
    (∀ (db : DB) (s : String) (uid : Int) (u : MUser), pyInt s = some uid →
      (db.users.map (fun v => v.id)).Nodup → u ∈ db.users → (u.id : Int) = uid →
      getUserFromToken db s = .ok u) ∧
    (∀ (db : DB) (s : String) (now : Nat), s ≠ "" →
      getCurrentOrDemoUser hashFn db (some s) now =
        (getUserFromToken db s).map (fun u => (u, db))) := by
  refine ⟨?_, ?_, ?_, ?_⟩
  · intro db s hparse
    exact getUserFromToken_parseFail hparse
  · intro db s uid hparse hnone
    refine getUserFromToken_unknown hparse ?_
    rw [find?_eq_none_iff]
    intro v hv
    simpa using hnone v hv
  · intro db s uid u hparse hnd hu hid
    refine getUserFromToken_found hparse ?_
    refine find?_eq_some_of_unique hu (by simp [hid]) ?_
    intro y hy hpy
    simp only [beq_iff_eq] at hpy
    refine List.inj_on_of_nodup_map hnd hy hu ?_
    have hcast : (y.id : Int) = (u.id : Int) := by rw [hpy, hid]
    exact_mod_cast hcast
  · intro db s now hs
    unfold getCurrentOrDemoUser
    rw [if_pos (by simp [pyTruthy, hs])]
    rfl

/-- C4 witness: in `dbFour`, garbage and unknown tokens fail with 401,
the token "1" resolves to `userA`, and a non-empty token never reaches
the demo fallback. -/
theorem token_resolution_witness :
    (pyInt "zzz" = none ∧ getUserFromToken dbFour "zzz" = .error ⟨401, "Invalid token"⟩) ∧
    getUserFromToken dbFour "9" = .error ⟨401, "User not found for token"⟩ ∧
    getUserFromToken dbFour "1" = .ok userA ∧
    getCurrentOrDemoUser (fun s => s) dbFour (some "1") 3 =
      (getUserFromToken dbFour "1").map (fun u => (u, dbFour)) :=
  ⟨⟨by decide, (token_resolution (fun s => s)).1 dbFour "zzz" (by decide)⟩,
    (token_resolution (fun s => s)).2.1 dbFour "9" 9 (by decide) (by decide),
    (token_resolution (fun s => s)).2.2.1 dbFour "1" 1 userA (by decide) (by decide)
      (by decide) (by decide),
    (token_resolution (fun s => s)).2.2.2 dbFour "1" 3 (by decide)⟩

/-- C10: once the demo identity has been lazily created by a
credential-less request (so its stored hash is `hashFn "demo"`), logging
in with the demo email and password "demo" succeeds, and the issued
credential `str(id)` resolves back to that same identity. -/
theorem demo_login_roundtrip (hashFn : String → String) (db : DB) (now : Nat)
    (u : MUser) (db2 : DB)
    (hno : ∀ v ∈ db.users, v.email ≠ demoEmail)
    (hres : getCurrentOrDemoUser hashFn db none now = .ok (u, db2)) :
    u.email = demoEmail ∧ u.hashedPassword = hashFn "demo" ∧
    login hashFn db2 demoEmail "demo" = .ok (pyStrNat u.id) ∧
    getUserFromToken db2 (pyStrNat u.id) = .ok u := by
  have hfindnone : db.users.find? (fun v => v.email == demoEmail) = none := by
    rw [find?_eq_none_iff]
    intro v hv
    simpa using hno v hv
  unfold getCurrentOrDemoUser at hres
  rw [if_neg (by simp [pyTruthy])] at hres
  rw [hfindnone] at hres
  injection hres with hpr
  injection hpr with hu hdb
  subst hu
  subst hdb
  refine ⟨rfl, rfl, ?_, ?_⟩
  · refine login_found ?_ (by simp)
    show (db.users ++ [(⟨nextUserIdOf db, demoEmail, hashFn "demo", now⟩ : MUser)]).find?
        (fun v => v.email == demoEmail) =
      some ⟨nextUserIdOf db, demoEmail, hashFn "demo", now⟩
    rw [find?_append_of_none (fun v hv => by simpa using hno v hv)]
    exact List.find?_cons_of_pos _ (by simp)
  · refine getUserFromToken_found (pyInt_pyStrNat _) ?_
    show (db.users ++ [(⟨nextUserIdOf db, demoEmail, hashFn "demo", now⟩ : MUser)]).find?
        (fun v => (v.id : Int) == ((nextUserIdOf db : Nat) : Int)) =
      some ⟨nextUserIdOf db, demoEmail, hashFn "demo", now⟩
    refine (find?_append_of_none ?_).trans ?_
    · intro v hv
      have hvle : v.id ≤ maxId (db.users.map (fun x => x.id)) :=
        le_maxId _ (List.mem_map_of_mem _ hv)
      simp only [beq_eq_false_iff_ne, ne_eq]
      intro hc
      have hcast : v.id = nextUserIdOf db := by exact_mod_cast hc
      unfold nextUserIdOf at hcast
      omega
    · exact List.find?_cons_of_pos _ (by simp)

/-! ## Lemmas on the random focus selection of `routes/tasks.py` -/

theorem length_toList_le (o : Option α) : o.toList.length ≤ 1 := by
  cases o <;> simp

theorem nodup_toList (o : Option α) : o.toList.Nodup := by
  cases o <;> simp

theorem mem_pick {l : List α} {c : Nat} {a : α} (h : pick l c = some a) : a ∈ l := by
  unfold pick at h
  exact List.get?_mem h

theorem pick_isSome {l : List α} (h : l ≠ []) (c : Nat) : ∃ a, pick l c = some a := by
  have hlen : 0 < l.length := List.length_pos.mpr h
  have hmod : c % l.length < l.length := Nat.mod_lt _ hlen
  unfold pick
  cases hg : l.get? (c % l.length) with
  | none =>
    have := List.get?_eq_none.mp hg
    omega
  | some a => exact ⟨a, rfl⟩

theorem mem_sizeBucket {sz : TaskSize} {t : RTask} {tasks : List RTask} :
    t ∈ sizeBucket sz tasks ↔ t ∈ tasks ∧ t.size = sz := by
  simp [sizeBucket, List.mem_filter]

theorem pick_toList_size {sz : TaskSize} {tasks : List RTask} {c : Nat} :
    ∀ a ∈ (pick (sizeBucket sz tasks) c).toList, a.size = sz := by
  intro a ha
  cases hp : pick (sizeBucket sz tasks) c with
  | none => rw [hp] at ha; cases ha
  | some b =>
    rw [hp] at ha
    rcases List.mem_singleton.mp ha with rfl
    exact (mem_sizeBucket.mp (mem_pick hp)).2

theorem pick_toList_mem {sz : TaskSize} {tasks : List RTask} {c : Nat} :
    ∀ a ∈ (pick (sizeBucket sz tasks) c).toList, a ∈ tasks := by
  intro a ha
  cases hp : pick (sizeBucket sz tasks) c with
  | none => rw [hp] at ha; cases ha
  | some b =>
    rw [hp] at ha
    rcases List.mem_singleton.mp ha with rfl
    exact (mem_sizeBucket.mp (mem_pick hp)).1

theorem bucketPicks_length (tasks : List RTask) (ct cm cb : Nat) :
    (bucketPicks tasks ct cm cb).length ≤ 3 := by
  unfold bucketPicks
  rw [List.length_append, List.length_append]
  have h1 := length_toList_le (pick (sizeBucket TaskSize.tiny tasks) ct)
  have h2 := length_toList_le (pick (sizeBucket TaskSize.medium tasks) cm)
  have h3 := length_toList_le (pick (sizeBucket TaskSize.big tasks) cb)
  omega

theorem bucketPicks_subset (tasks : List RTask) (ct cm cb : Nat) :
    ∀ t ∈ bucketPicks tasks ct cm cb, t ∈ tasks := by
  intro t ht
  unfold bucketPicks at ht
  rcases List.mem_append.mp ht with h | h
  · rcases List.mem_append.mp h with h2 | h2
    · exact pick_toList_mem t h2
    · exact pick_toList_mem t h2
  · exact pick_toList_mem t h

theorem bucketPicks_nodup (tasks : List RTask) (ct cm cb : Nat) :
    (bucketPicks tasks ct cm cb).Nodup := by
  unfold bucketPicks
  refine List.Nodup.append (List.Nodup.append (nodup_toList _) (nodup_toList _) ?_)
    (nodup_toList _) ?_
  · intro a ha hb
    have h1 := pick_toList_size a ha
    have h2 := pick_toList_size a hb
    rw [h1] at h2
    cases h2
  · intro a ha hb
    have h3 := pick_toList_size a hb
    rcases List.mem_append.mp ha with h | h
    · have h1 := pick_toList_size a h
      rw [h1] at h3
      cases h3
    · have h2 := pick_toList_size a h
      rw [h2] at h3
      cases h3

theorem nodup_ids_of_subset {l A : List RTask} (hsub : ∀ t ∈ l, t ∈ A)
    (hn : l.Nodup) (hA : (A.map (fun t => t.id)).Nodup) :
    (l.map (fun t => t.id)).Nodup :=
  List.Nodup.map_on
    (fun x hx y hy hxy => List.inj_on_of_nodup_map hA (hsub x hx) (hsub y hy) hxy) hn

theorem pendingTasks_ids (table : List Row) :
    (pendingTasks table).map (fun t => t.id) =
      (table.filter (fun r => r.status == "pending")).map (fun r => r.id) := by
  unfold pendingTasks
  rw [List.map_map]
  rfl

theorem sizeBucket_ne_nil {sz : TaskSize} {table : List Row}
    (h : ∃ r ∈ table, r.status = "pending" ∧ r.size = sz) :
    sizeBucket sz (pendingTasks table) ≠ [] := by
  rcases h with ⟨r, hr, hrs, hrsz⟩
  refine List.ne_nil_of_mem (a := taskOfRow r) ?_
  refine mem_sizeBucket.mpr ⟨?_, hrsz⟩
  exact List.mem_map_of_mem _ (List.mem_filter.mpr ⟨hr, by simp [hrs]⟩)

/-! ## Claim theorems: the routes API -/

/-- C1: for every set of pending rows (unique primary-key ids) and every
outcome of the random draws, the random focus selection returns at most 3
tasks, contains no duplicate ids, draws only from the pending tasks, and
whenever every size bucket holds at least one pending task it returns
exactly one task of each size. -/
theorem random_focus_spec (table : List Row) (ct cm cb : Nat)
    (shuffle : List RTask → List RTask)
    (hsh : ∀ l, (shuffle l).Perm l)
    (hids : ((table.filter (fun r => r.status == "pending")).map (fun r => r.id)).Nodup) :
    (getRandomFocusTasks table ct cm cb shuffle).length ≤ 3 ∧
    ((getRandomFocusTasks table ct cm cb shuffle).map (fun t => t.id)).Nodup ∧
    (∀ t ∈ getRandomFocusTasks table ct cm cb shuffle, t ∈ pendingTasks table) ∧
    ((∃ r ∈ table, r.status = "pending" ∧ r.size = TaskSize.tiny) →
      (∃ r ∈ table, r.status = "pending" ∧ r.size = TaskSize.medium) →
      (∃ r ∈ table, r.status = "pending" ∧ r.size = TaskSize.big) →
      (getRandomFocusTasks table ct cm cb shuffle).countP
          (fun t => t.size == TaskSize.tiny) = 1 ∧
        (getRandomFocusTasks table ct cm cb shuffle).countP
          (fun t => t.size == TaskSize.medium) = 1 ∧
        (getRandomFocusTasks table ct cm cb shuffle).countP
          (fun t => t.size == TaskSize.big) = 1) := by
  have hAids : ((pendingTasks table).map (fun t => t.id)).Nodup := by
    rw [pendingTasks_ids]
    exact hids
  have hA : (pendingTasks table).Nodup := List.Nodup.of_map _ hAids
  unfold getRandomFocusTasks
  set A := pendingTasks table with hAdef
  set S := bucketPicks A ct cm cb with hSdef
  have hSlen : S.length ≤ 3 := bucketPicks_length A ct cm cb
  have hSsub : ∀ t ∈ S, t ∈ A := bucketPicks_subset A ct cm cb
  have hSnd : S.Nodup := bucketPicks_nodup A ct cm cb
  by_cases hc : S.length < 3
  · rw [if_pos hc]
    have hrem : ∀ t ∈ (shuffle (A.filter (fun t => !(S.contains t)))).take (3 - S.length),
        t ∈ A ∧ t ∉ S := by
      intro t ht
      have h1 : t ∈ shuffle (A.filter (fun t => !(S.contains t))) :=
        List.take_subset _ _ ht
      have h2 : t ∈ A.filter (fun t => !(S.contains t)) :=
        (hsh _).mem_iff.mp h1
      rcases List.mem_filter.mp h2 with ⟨hmem, hbool⟩
      refine ⟨hmem, ?_⟩
      intro hmemS
      rw [Bool.not_eq_true'] at hbool
      have hel : List.elem t S = false := hbool
      have htrue : List.elem t S = true := List.elem_iff.mpr hmemS
      rw [hel] at htrue
      cases htrue
    have hnodup : (S ++ (shuffle (A.filter (fun t => !(S.contains t)))).take (3 - S.length)).Nodup := by
      refine List.Nodup.append hSnd ?_ ?_
      · refine List.Nodup.sublist (List.take_sublist _ _) ?_
        exact ((hsh _).symm.nodup_iff).mp (List.Nodup.filter _ hA)
      · intro a haS hatake
        exact (hrem a hatake).2 haS
    have hsub : ∀ t ∈ S ++ (shuffle (A.filter (fun t => !(S.contains t)))).take (3 - S.length),
        t ∈ A := by
      intro t ht
      rcases List.mem_append.mp ht with h | h
      · exact hSsub t h
      · exact (hrem t h).1
    refine ⟨?_, nodup_ids_of_subset hsub hnodup hAids, hsub, ?_⟩
    · rw [List.length_append, List.length_take]
      omega
    · intro h1 h2 h3
      exfalso
      rcases pick_isSome (sizeBucket_ne_nil h1) ct with ⟨a, hp1⟩
      rcases pick_isSome (sizeBucket_ne_nil h2) cm with ⟨b, hp2⟩
      rcases pick_isSome (sizeBucket_ne_nil h3) cb with ⟨c, hp3⟩
      rw [hSdef] at hc
      unfold bucketPicks at hc
      rw [hp1, hp2, hp3] at hc
      simp at hc
  · rw [if_neg hc]
    refine ⟨hSlen, nodup_ids_of_subset hSsub hSnd hAids, hSsub, ?_⟩
    intro h1 h2 h3
    rcases pick_isSome (sizeBucket_ne_nil h1) ct with ⟨a, hp1⟩
    rcases pick_isSome (sizeBucket_ne_nil h2) cm with ⟨b, hp2⟩
    rcases pick_isSome (sizeBucket_ne_nil h3) cb with ⟨c, hp3⟩
    have ha : a.size = TaskSize.tiny :=
      pick_toList_size a (by rw [hp1]; exact List.mem_singleton_self a)
    have hb : b.size = TaskSize.medium :=
      pick_toList_size b (by rw [hp2]; exact List.mem_singleton_self b)
    have hcs : c.size = TaskSize.big :=
      pick_toList_size c (by rw [hp3]; exact List.mem_singleton_self c)
    rw [hSdef]
    unfold bucketPicks
    rw [hp1, hp2, hp3]
    refine ⟨?_, ?_, ?_⟩ <;>
      simp [List.countP_append, List.countP_cons, ha, hb, hcs]

/-- C1 witness: on a table with one pending task of each size (plus a
completed one), the selection with concrete draws and identity shuffle
meets every clause of the specification. -/
theorem random_focus_spec_witness :
    ((rowsFour.filter (fun r => r.status == "pending")).map (fun r => r.id)).Nodup ∧
    ((getRandomFocusTasks rowsFour 0 0 0 (fun l => l)).length ≤ 3 ∧
      ((getRandomFocusTasks rowsFour 0 0 0 (fun l => l)).map (fun t => t.id)).Nodup ∧
      (∀ t ∈ getRandomFocusTasks rowsFour 0 0 0 (fun l => l), t ∈ pendingTasks rowsFour) ∧
      ((∃ r ∈ rowsFour, r.status = "pending" ∧ r.size = TaskSize.tiny) →
        (∃ r ∈ rowsFour, r.status = "pending" ∧ r.size = TaskSize.medium) →
        (∃ r ∈ rowsFour, r.status = "pending" ∧ r.size = TaskSize.big) →
        (getRandomFocusTasks rowsFour 0 0 0 (fun l => l)).countP
            (fun t => t.size == TaskSize.tiny) = 1 ∧
          (getRandomFocusTasks rowsFour 0 0 0 (fun l => l)).countP
            (fun t => t.size == TaskSize.medium) = 1 ∧
          (getRandomFocusTasks rowsFour 0 0 0 (fun l => l)).countP
            (fun t => t.size == TaskSize.big) = 1)) :=
  ⟨by decide,
    random_focus_spec rowsFour 0 0 0 (fun l => l) (fun l => List.Perm.refl l) (by decide)⟩

/-- C9: a status query parameter that is neither "pending" nor
"completed" is silently ignored: the listing coincides with the
unfiltered one and returns all tasks of the table ordered by id
ascending (neither an empty list nor an error). -/
theorem list_tasks_unknown_filter (table : List Row) (s : String)
    (h1 : s ≠ "pending") (h2 : s ≠ "completed") :
    listTasks table (some s) = listTasks table none ∧
    (listTasks table (some s)).Perm (table.map taskOfRow) ∧
    List.Sorted (fun a b : RTask => a.id ≤ b.id) (listTasks table (some s)) := by
  have hcond : ¬ ((some s : Option String) = some "pending" ∨
      (some s : Option String) = some "completed") := by
    rintro (h | h)
    · injection h with h; exact h1 h
    · injection h with h; exact h2 h
  unfold listTasks
  rw [if_neg hcond, if_neg (by rintro (h | h) <;> cases h)]
  refine ⟨rfl, (List.perm_insertionSort _ _).map _, ?_⟩
  have hsorted : List.Sorted (fun a b : Row => a.id ≤ b.id)
      (List.insertionSort (fun a b : Row => a.id ≤ b.id) table) :=
    @List.sorted_insertionSort Row _ _ ⟨fun a b => Int.le_total a.id b.id⟩
      ⟨fun a b c hab hbc => Int.le_trans hab hbc⟩ table
  exact List.Pairwise.map _ (fun a b hab => hab) hsorted

/-- C9 witness: the filter "done" is ignored and the full table comes
back ordered by id. -/
theorem list_tasks_unknown_filter_witness :
    ("done" ≠ "pending") ∧ ("done" ≠ "completed") ∧
    (listTasks rowsFour (some "done") = listTasks rowsFour none ∧
      (listTasks rowsFour (some "done")).Perm (rowsFour.map taskOfRow) ∧
      List.Sorted (fun a b : RTask => a.id ≤ b.id) (listTasks rowsFour (some "done"))) :=
  ⟨by decide, by decide,
    list_tasks_unknown_filter rowsFour "done" (by decide) (by decide)⟩

/-- C10 witness: from the fresh database, a credential-less request
creates the demo identity; logging in with password "demo" then succeeds
and the issued token resolves back to that identity. -/
theorem demo_login_roundtrip_witness :
    ((∀ v ∈ initDB.users, v.email ≠ demoEmail) ∧
      getCurrentOrDemoUser (fun s => s) initDB none 5 = .ok (demoU5, demoDB5)) ∧
    (demoU5.email = demoEmail ∧ demoU5.hashedPassword = (fun s : String => s) "demo" ∧
      login (fun s => s) demoDB5 demoEmail "demo" = .ok (pyStrNat demoU5.id) ∧
      getUserFromToken demoDB5 (pyStrNat demoU5.id) = .ok demoU5) :=
  ⟨⟨by decide, by rfl⟩,
    demo_login_roundtrip (fun s => s) initDB 5 demoU5 demoDB5 (by decide) (by rfl)⟩
